import Mathlib

/-!
Verification of the last-mile delivery routing engine.

The development shallowly embeds the core services of the repository:

* `optimizer` — the CVRPTW solver (`greedy` construction, `two_opt`
  local search, `feasible`, `route_dist`, `score`, `solve`);
* `constraint_checker` — `check_capacity`, `time_to_minutes`,
  `validate_route`;
* `rerouter` — the traffic-event matrix update and the ETA re-walk;
* `distance_matrix` — the great-circle fallback `haversine_matrix`.

Python floats are modelled as exact rationals (`ℚ`); the great-circle
provider, which uses transcendental functions, is modelled over `ℝ`.
Python lists indexed by position become Lean `List`s; the solver's
numpy matrices, which are only ever read, become total maps
`Nat → Nat → ℚ`.  The rerouter's matrix, which is mutated and
bounds-checked, keeps the `List (List ℚ)` representation together with
Python's signed-index semantics.
-/

/-- A stop record as consumed by the solver: keys `id`, `idx`, `weight`,
`earliest_min`, `latest_min` of the Python stop dict. -/
structure StopRec where
  id : Nat := 0
  idx : Nat := 0
  weight : ℚ := 0
  earliest_min : ℚ := 0
  latest_min : ℚ := 0
deriving DecidableEq, Repr, Inhabited

/-- A vehicle record: keys `id`, `capacity_kg` of the Python vehicle dict
(`driver_name` is display-only and omitted). -/
structure VehicleRec where
  id : Nat := 0
  capacity_kg : ℚ := 0
deriving DecidableEq, Repr, Inhabited

/-- The `CVRPTWSolver` state: stops, vehicles, the distance and travel-time
matrices, the depot index and the dispatch time (`start_min`, 480 in the
service layer). -/
structure Solver where
  stops : List StopRec
  vehicles : List VehicleRec
  dist : Nat → Nat → ℚ
  time_m : Nat → Nat → ℚ
  depot_idx : Nat
  start_min : ℚ

/-- `self.n = len(stops)`. -/
def Solver.n (S : Solver) : Nat := S.stops.length

/-- `self.stops[i]` (always called in range by the solver). -/
def Solver.stop (S : Solver) (i : Nat) : StopRec := S.stops.getD i default

/-- A route dict produced by the solver: `vehicle`, `stops`
(positions into the solver's stop list) and `dist`. -/
structure RouteRec where
  vehicle : VehicleRec
  stops : List Nat
  dist : ℚ
deriving DecidableEq, Repr

/-- One iteration of the candidate scan of `_greedy` (optimizer.py
lines 104–118): skip the stop if it fails the capacity or the
time-window check, otherwise keep it when it strictly beats the best
distance so far.  `none` plays the role of the initial
`best_dist = inf`. -/
def selectStep (S : Solver) (v : VehicleRec) (load t : ℚ) (pos : Nat)
    (best : Option (Nat × ℚ)) (i : Nat) : Option (Nat × ℚ) :=
  let s := S.stop i
  if load + s.weight > v.capacity_kg then best
  else if t + S.time_m pos s.idx > s.latest_min then best
  else
    let d := S.dist pos s.idx
    match best with
    | none => some (i, d)
    | some (_, bd) => if d < bd then some (i, d) else best

/-- The candidate-selection scan of `_greedy` (lines 101–118): fold the
scan step over `unassigned` in input order. -/
def selectBest (S : Solver) (v : VehicleRec) (unassigned : List Nat)
    (load t : ℚ) (pos : Nat) : Option (Nat × ℚ) :=
  unassigned.foldl (selectStep S v load t pos) none

/-- The inner `while unassigned:` loop of `_greedy` (lines 101–129),
run with fuel; the caller passes `unassigned.length`, which is exact
because every iteration removes one element of `unassigned`.  Returns
the stop positions committed to this vehicle (in visit order) together
with the remaining unassigned positions. -/
def greedyVehicle (S : Solver) (v : VehicleRec) :
    Nat → List Nat → ℚ → ℚ → Nat → List Nat × List Nat
  | 0, unassigned, _, _, _ => ([], unassigned)
  | fuel + 1, unassigned, load, t, pos =>
    match selectBest S v unassigned load t pos with
    | none => ([], unassigned)
    | some (bi, _) =>
      let s := S.stop bi
      let t' := max (t + S.time_m pos s.idx) s.earliest_min
      let r := greedyVehicle S v fuel (unassigned.erase bi) (load + s.weight) t' s.idx
      (bi :: r.1, r.2)

/-- `_route_dist` unrolled from its running position: distance of the
tail legs plus the final return to the depot. -/
def routeDistFrom (S : Solver) (prev : Nat) : List Nat → ℚ
  | [] => S.dist prev S.depot_idx
  | i :: rest => S.dist prev (S.stop i).idx + routeDistFrom S (S.stop i).idx rest

/-- `_route_dist` (lines 169–179): depot → first stop, successive legs,
last stop → depot; `0` on the empty route. -/
def route_dist (S : Solver) (l : List Nat) : ℚ :=
  match l with
  | [] => 0
  | _ :: _ => routeDistFrom S S.depot_idx l

/-- The vehicle loop of `_greedy` (lines 88–138): stop when no stop is
left (`break`), run the per-vehicle construction, emit a route dict when
the vehicle accumulated at least one stop. -/
def greedyGo (S : Solver) : List VehicleRec → List Nat → List RouteRec
  | [], _ => []
  | v :: vs, unassigned =>
    if unassigned = [] then []
    else
      let r := greedyVehicle S v unassigned.length unassigned 0 S.start_min S.depot_idx
      let rest := greedyGo S vs r.2
      if r.1 = [] then rest
      else { vehicle := v, stops := r.1, dist := route_dist S r.1 } :: rest

/-- `_greedy`: all stop positions start unassigned, in input order. -/
def greedy (S : Solver) : List RouteRec :=
  greedyGo S S.vehicles (List.range S.n)

/-- The time-window walk of `_feasible` (lines 185–193): advance the
clock to `max(t + travel, earliest_min)` and reject when it passes
`latest_min`. -/
def feasWalk (S : Solver) : ℚ → Nat → List Nat → Bool
  | _, _, [] => true
  | t, pos, i :: rest =>
    let s := S.stop i
    let t' := max (t + S.time_m pos s.idx) s.earliest_min
    if t' > s.latest_min then false else feasWalk S t' s.idx rest

/-- `_feasible` (lines 181–193): capacity first, then the time-window
walk from the dispatch time at the depot. -/
def feasible (S : Solver) (l : List Nat) (v : VehicleRec) : Bool :=
  if (l.map (fun i => (S.stop i).weight)).sum > v.capacity_kg then false
  else feasWalk S S.start_min S.depot_idx l

/-- The reversal candidate of `_two_opt` (line 157):
`best[: i + 1] + best[i + 1 : j + 1][::-1] + best[j + 1 :]`. -/
def twoOptCandidate (best : List Nat) (i j : Nat) : List Nat :=
  best.take (i + 1) ++ ((best.drop (i + 1)).take (j - i)).reverse ++ best.drop (j + 1)

/-- The `(i, j)` scan order of `_two_opt`'s double loop:
`i in range(len - 1)`, `j in range(i + 2, len)`.  The length of `best`
is invariant across swaps, so the pair list is fixed per pass. -/
def twoOptPairs (len : Nat) : List (Nat × Nat) :=
  (List.range (len - 1)).flatMap fun i =>
    (List.range' (i + 2) (len - (i + 2))).map fun j => (i, j)

/-- The `1e-6` improvement threshold of `_two_opt`. -/
def epsilon : ℚ := 1 / 1000000

/-- One full scan of `_two_opt`'s double loop (lines 155–161): the
candidate is built from the current `best`, accepted when it is more
than `epsilon` shorter and stays feasible; the flag records whether any
swap was accepted. -/
def twoOptPass (S : Solver) (v : VehicleRec) (best : List Nat) : List Nat × Bool :=
  (twoOptPairs best.length).foldl
    (fun st ij =>
      let cand := twoOptCandidate st.1 ij.1 ij.2
      if route_dist S cand < route_dist S st.1 - epsilon ∧ feasible S cand v = true
      then (cand, true) else st)
    (best, false)

/-- The `while improved:` loop of `_two_opt`, run with fuel.  Every
accepted swap drops the route distance by more than `epsilon`, and the
distance ranges over the finitely many permutations of the route, so
`(length)! + 1` passes always reach the unimproved fixpoint. -/
def twoOptLoop (S : Solver) (v : VehicleRec) : Nat → List Nat → List Nat
  | 0, best => best
  | fuel + 1, best =>
    let r := twoOptPass S v best
    if r.2 then twoOptLoop S v fuel r.1 else best

/-- `_two_opt` (lines 144–163). -/
def two_opt (S : Solver) (r : RouteRec) : RouteRec :=
  let best := twoOptLoop S r.vehicle (Nat.factorial r.stops.length + 1) r.stops
  { r with stops := best, dist := route_dist S best }

/-- `solve` (lines 68–72): greedy construction, then per-route 2-opt. -/
def solve (S : Solver) : List RouteRec :=
  (greedy S).map (two_opt S)

/-- Python's `round(x, d)`: round half to even on the last kept digit. -/
def pyRoundHalfEven (x : ℚ) : Int :=
  let f := ⌊x⌋
  let r := x - (f : ℚ)
  if r < 1 / 2 then f
  else if 1 / 2 < r then f + 1
  else if f % 2 = 0 then f else f + 1

/-- `round(x, d)` to `d` decimal digits. -/
def pyRound (x : ℚ) (d : Nat) : ℚ :=
  (pyRoundHalfEven (x * 10 ^ d) : ℚ) / 10 ^ d

/-- The score dict of `CVRPTWSolver.score` (lines 74–82). -/
structure Score where
  total_distance_km : ℚ
  num_routes : Nat
  avg_stops_per_route : ℚ
  unassigned : Int
deriving DecidableEq, Repr

/-- `score` (lines 74–82): `unassigned = self.n - total_stops` as exact
integer arithmetic. -/
def score (S : Solver) (routes : List RouteRec) : Score :=
  let total_dist := (routes.map RouteRec.dist).sum
  let total_stops : Nat := (routes.map (fun r => r.stops.length)).sum
  { total_distance_km := pyRound total_dist 3
    num_routes := routes.length
    avg_stops_per_route := pyRound ((total_stops : ℚ) / (max routes.length 1 : ℚ)) 1
    unassigned := (S.n : Int) - (total_stops : Int) }

/-! ### constraint_checker.py -/

/-- A local time `hour:minute:second` as stored on a stop. -/
structure TimeHMS where
  hour : Nat
  minute : Nat
  second : Nat
deriving DecidableEq, Repr, Inhabited

/-- `time_to_minutes` (constraint_checker.py lines 5–7). -/
def time_to_minutes (t : TimeHMS) : ℚ :=
  t.hour * 60 + t.minute + (t.second : ℚ) / 60

/-- `check_capacity` (lines 15–17). -/
def check_capacity (weights : List ℚ) (vehicle_capacity : ℚ) : Bool :=
  weights.sum ≤ vehicle_capacity

/-- The time-window walk of `validate_route` (lines 37–53): the raw
pre-wait `arrival` is recorded, the clock is advanced to
`max(arrival, earliest_min)`, and the walk aborts (whole route invalid,
arrivals discarded) when an arrival passes `latest_min`. -/
def validWalk (time_matrix : Nat → Nat → ℚ) : ℚ → Nat → List StopRec → Option (List ℚ)
  | _, _, [] => some []
  | t, pos, s :: rest =>
    let arrival := t + time_matrix pos s.idx
    if arrival > s.latest_min then none
    else (validWalk time_matrix (max arrival s.earliest_min) s.idx rest).map (arrival :: ·)

/-- `validate_route` (lines 20–53).  The `dist_matrix` argument is
accepted and never read, exactly as in the source. -/
def validate_route (stops : List StopRec) (vehicle_capacity : ℚ)
    (dist_matrix time_matrix : Nat → Nat → ℚ) (depot_idx : Nat)
    (start_time_min : ℚ) : Bool × List ℚ :=
  if ¬ check_capacity (stops.map StopRec.weight) vehicle_capacity = true then (false, [])
  else
    match validWalk time_matrix start_time_min depot_idx stops with
    | none => (false, [])
    | some arrivals => (true, arrivals)

/-- Spec-side description of the walked raw arrival times: clock starts
at the dispatch time on the depot, each arrival is clock plus the
time-matrix travel entry, and the clock then waits to `earliest_min`
when early.  Runs to the end regardless of window misses. -/
def walkArrivals (time_matrix : Nat → Nat → ℚ) : ℚ → Nat → List StopRec → List ℚ
  | _, _, [] => []
  | t, pos, s :: rest =>
    let arrival := t + time_matrix pos s.idx
    arrival :: walkArrivals time_matrix (max arrival s.earliest_min) s.idx rest

/-- Spec-side walk of the solver claim: at each stop the pre-wait
arrival must not pass `latest_min`; the clock then waits to
`earliest_min` when early. -/
def preWaitOk (S : Solver) : ℚ → Nat → List Nat → Bool
  | _, _, [] => true
  | t, pos, i :: rest =>
    let s := S.stop i
    let arrival := t + S.time_m pos s.idx
    if arrival ≤ s.latest_min then preWaitOk S (max arrival s.earliest_min) s.idx rest
    else false

/-- The clock values left by `_feasible`'s walk after each stop. -/
def feasTrace (S : Solver) : ℚ → Nat → List Nat → List ℚ
  | _, _, [] => []
  | t, pos, i :: rest =>
    let s := S.stop i
    let t' := max (t + S.time_m pos s.idx) s.earliest_min
    t' :: feasTrace S t' s.idx rest

/-- The clock values left by `validate_route`'s walk after each stop. -/
def validTrace (time_matrix : Nat → Nat → ℚ) : ℚ → Nat → List StopRec → List ℚ
  | _, _, [] => []
  | t, pos, s :: rest =>
    let arrival := t + time_matrix pos s.idx
    let t' := max arrival s.earliest_min
    t' :: validTrace time_matrix t' s.idx rest

/-! ### rerouter.py -/

/-- A stop row as read back for rerouting: identifier, window opening
time and coordinates. -/
structure RStop where
  id : Nat := 0
  earliest_time : TimeHMS := default
  lat : ℚ := 0
  lng : ℚ := 0
deriving DecidableEq, Repr, Inhabited

/-- One emitted element of the reroute payload's `stops` list. -/
structure UpdatedStop where
  stop_id : Nat
  sequence : Nat
  planned_arrival : String
  planned_arrival_min : ℚ
  lat : ℚ
  lng : ℚ
deriving DecidableEq, Repr

/-- The reroute payload `{route_id, rerouted, stops}`. -/
structure RerouteResult where
  route_id : Nat
  rerouted : Bool
  stops : List UpdatedStop
deriving DecidableEq, Repr

/-- Python `int(x)` on a float: truncation toward zero. -/
def pyInt (q : ℚ) : Int := Int.tdiv q.num (q.den : Int)

/-- Python's `f"{n:02d}"`: zero-pad a single digit to width two. -/
def fmt02 (n : Int) : String :=
  if 0 ≤ n ∧ n < 10 then "0" ++ toString n else toString n

/-- `h, m = divmod(int(arrival), 60)` followed by `f"{h:02d}:{m:02d}"`
(rerouter.py line 94 and 98). -/
def hhmmStr (arrival : ℚ) : String :=
  fmt02 (Int.fdiv (pyInt arrival) 60) ++ ":" ++ fmt02 (Int.fmod (pyInt arrival) 60)

/-- The ETA walk of `reroute_active` (lines 81–102), carrying the
running enumerate index `i`, the clock and `current_pos` exactly as the
source does. -/
def rerouteGo (time_matrix : List (List ℚ)) : Nat → ℚ → Nat → List RStop → List UpdatedStop
  | _, _, _, [] => []
  | i, t, pos, s :: rest =>
    let matrix_idx := i + 1
    let travel := (time_matrix.getD pos []).getD matrix_idx 0
    let arrival := t + travel
    let earliest := time_to_minutes s.earliest_time
    { stop_id := s.id
      sequence := i
      planned_arrival := hhmmStr arrival
      planned_arrival_min := pyRound arrival 1
      lat := s.lat
      lng := s.lng } :: rerouteGo time_matrix (i + 1) (max arrival earliest) matrix_idx rest

/-- The ETA recomputation of `reroute_active`: walk the unchanged stop
sequence from the depot (`current_pos = 0`) at `current_time = 480`. -/
def reroute_core (stops : List RStop) (time_matrix : List (List ℚ)) : List UpdatedStop :=
  rerouteGo time_matrix 0 480 0 stops

/-- The return value of `reroute_active` (lines 104–108), taking the
sequence-ordered stop rows and the delayed time matrix as inputs (the
database read and the matrix rebuild are I/O). -/
def reroute_active_result (route_id : Nat) (stops : List RStop)
    (time_matrix : List (List ℚ)) : RerouteResult :=
  { route_id := route_id, rerouted := true, stops := reroute_core stops time_matrix }

/-- Spec-side arrivals of the reroute walk: position `i`'s travel is the
time-matrix entry `[i][i+1]` and the clock waits to the window opening. -/
def etaArrivals (time_matrix : List (List ℚ)) : Nat → ℚ → List RStop → List ℚ
  | _, _, [] => []
  | i, t, s :: rest =>
    let arrival := t + (time_matrix.getD i []).getD (i + 1) 0
    arrival :: etaArrivals time_matrix (i + 1) (max arrival (time_to_minutes s.earliest_time)) rest

/-- A traffic event dict; a `none` field models an absent key, read with
`.get(key, default)` in the source. -/
structure TrafficEvent where
  from_idx : Option Int := none
  to_idx : Option Int := none
  delay_factor : Option ℚ := none
deriving DecidableEq, Repr

/-- Python signed list indexing: `0 ≤ i < n` is direct, `-n ≤ i < 0`
wraps to `n + i`, anything else raises `IndexError` (`none`). -/
def pyIndex (n : Nat) (i : Int) : Option Nat :=
  if 0 ≤ i ∧ i < (n : Int) then some i.toNat
  else if -(n : Int) ≤ i ∧ i < 0 then some ((n : Int) + i).toNat
  else none

/-- One iteration of the traffic-event loop (rerouter.py lines 73–78):
read the indices and the factor with their defaults, short-circuit on
`fi < len(time_matrix)`, then `ti < len(time_matrix[fi])`, and multiply
the single entry in place.  `none` models an `IndexError` escaping the
loop (a negative index below `-len` raises on the read). -/
def applyEvent (time_matrix : List (List ℚ)) (e : TrafficEvent) : Option (List (List ℚ)) :=
  let fi := e.from_idx.getD 0
  let ti := e.to_idx.getD 0
  let factor := e.delay_factor.getD (3 / 2)
  if fi < (time_matrix.length : Int) then
    match pyIndex time_matrix.length fi with
    | none => none
    | some fj =>
      let row := time_matrix.getD fj []
      if ti < (row.length : Int) then
        match pyIndex row.length ti with
        | none => none
        | some tj => some (time_matrix.set fj (row.set tj (row.getD tj 0 * factor)))
      else some time_matrix
  else some time_matrix

/-- The full traffic-event loop over the rebuilt time matrix. -/
def applyEvents (time_matrix : List (List ℚ)) : List TrafficEvent → Option (List (List ℚ))
  | [] => some time_matrix
  | e :: rest => (applyEvent time_matrix e).bind (applyEvents · rest)

/-! ### distance_matrix.py — great-circle fallback -/

/-- One haversine entry (distance_matrix.py lines 70–73): inputs in
decimal degrees, Earth radius `R`, result in km. -/
noncomputable def haversineEntry (R : ℝ) (ci cj : ℝ × ℝ) : ℝ :=
  let lat_i := ci.1 * (Real.pi / 180)
  let lat_j := cj.1 * (Real.pi / 180)
  let lng_i := ci.2 * (Real.pi / 180)
  let lng_j := cj.2 * (Real.pi / 180)
  let dlat := lat_j - lat_i
  let dlng := lng_j - lng_i
  let a := Real.sin (dlat / 2) ^ 2 +
    Real.cos lat_i * Real.cos lat_j * Real.sin (dlng / 2) ^ 2
  2 * R * Real.arcsin (Real.sqrt a)

/-- `haversine_matrix` (lines 53–77): the km distance matrix and the
minute time matrix `dist / avg_speed_kmh * 60`, both `n × n`. -/
noncomputable def haversine_matrix (coords : List (ℝ × ℝ)) (avg_speed_kmh : ℝ) :
    List (List ℝ) × List (List ℝ) :=
  (coords.map fun ci => coords.map fun cj => haversineEntry 6371 ci cj,
   coords.map fun ci => coords.map fun cj => haversineEntry 6371 ci cj / avg_speed_kmh * 60)

/-! ### Shared helper lemmas -/

/-- If a 2-opt scan accepts nothing, the improvement loop is the
identity, for any amount of fuel. -/
lemma twoOptLoop_fix {S : Solver} {v : VehicleRec} {best : List Nat}
    (h : (twoOptPass S v best).2 = false) : ∀ fuel, twoOptLoop S v fuel best = best
  | 0 => rfl
  | fuel + 1 => by
    rw [twoOptLoop]
    simp [h]

/-- `validWalk` succeeds exactly when no walked arrival passes its
stop's `latest_min`, and then returns exactly the walked arrivals. -/
lemma validWalk_eq (tm : Nat → Nat → ℚ) :
    ∀ (stops : List StopRec) (t : ℚ) (pos : Nat),
      validWalk tm t pos stops =
        if ∃ p ∈ stops.zip (walkArrivals tm t pos stops), p.1.latest_min < p.2
        then none
        else some (walkArrivals tm t pos stops)
  | [], t, pos => by simp [validWalk, walkArrivals]
  | s :: rest, t, pos => by
    rw [validWalk, walkArrivals]
    by_cases h : t + tm pos s.idx > s.latest_min
    · simp only [if_pos h]
      rw [if_pos]
      exact ⟨(s, t + tm pos s.idx), by simp [List.zip_cons_cons], h⟩
    · simp only [if_neg h]
      rw [validWalk_eq tm rest (max (t + tm pos s.idx) s.earliest_min) s.idx]
      by_cases hr : ∃ p ∈ rest.zip
          (walkArrivals tm (max (t + tm pos s.idx) s.earliest_min) s.idx rest),
          p.1.latest_min < p.2
      · rw [if_pos hr, if_pos]
        · rfl
        · obtain ⟨p, hp, hlt⟩ := hr
          exact ⟨p, by simp [List.zip_cons_cons, hp], hlt⟩
      · rw [if_neg hr, if_neg]
        · rfl
        · rintro ⟨p, hp, hlt⟩
          rw [List.zip_cons_cons, List.mem_cons] at hp
          rcases hp with hp | hp
          · rw [hp] at hlt
            exact h hlt
          · exact hr ⟨p, hp, hlt⟩

/-- C5: `validate_route` returns `(False, [])` exactly when the
capacity check fails or some walked pre-wait arrival strictly exceeds
its stop's `latest_min`; otherwise it returns `(True, arrivals)` with
the raw pre-wait arrivals.  The characterization mentions no condition
on the leg back to the depot, and the unused `dist_matrix` argument is
irrelevant to the result. -/
theorem validate_route_characterization (stops : List StopRec) (cap : ℚ)
    (dm tm : Nat → Nat → ℚ) (depot_idx : Nat) (t0 : ℚ) :
    (validate_route stops cap dm tm depot_idx t0 =
      if ¬ (stops.map StopRec.weight).sum ≤ cap
          ∨ ∃ p ∈ stops.zip (walkArrivals tm t0 depot_idx stops), p.1.latest_min < p.2
      then (false, [])
      else (true, walkArrivals tm t0 depot_idx stops))
    ∧ ∀ dm' : Nat → Nat → ℚ,
        validate_route stops cap dm tm depot_idx t0 =
          validate_route stops cap dm' tm depot_idx t0 := by
  constructor
  · by_cases hc : (stops.map StopRec.weight).sum ≤ cap
    · rw [validate_route, if_neg (by simp [check_capacity, hc]), validWalk_eq]
      by_cases hw : ∃ p ∈ stops.zip (walkArrivals tm t0 depot_idx stops), p.1.latest_min < p.2
      · rw [if_pos hw, if_pos (Or.inr hw)]
      · rw [if_neg hw, if_neg (by simp [hc, hw])]
    · rw [validate_route, if_pos (by simp [check_capacity, hc]), if_pos (Or.inl hc)]
  · intro dm'
    rfl

/-- C10: on orderings whose stops all satisfy
`earliest_min ≤ latest_min`, the solver's post-wait window walk
(`_feasible`) accepts exactly when `validate_route`'s pre-wait walk
does, and the two walks leave the clock at the same value after every
stop. -/
theorem feasible_matches_validate (S : Solver) :
    ∀ (l : List Nat) (t : ℚ) (pos : Nat),
      (∀ i ∈ l, (S.stop i).earliest_min ≤ (S.stop i).latest_min) →
      (feasWalk S t pos l = true ↔
        (validWalk S.time_m t pos (l.map S.stop)).isSome = true)
      ∧ feasTrace S t pos l = validTrace S.time_m t pos (l.map S.stop)
  | [], t, pos, _ => by simp [feasWalk, validWalk, feasTrace, validTrace]
  | i :: rest, t, pos, h => by
    have hs : (S.stop i).earliest_min ≤ (S.stop i).latest_min := h i (by simp)
    have hrest := feasible_matches_validate S rest
      (max (t + S.time_m pos (S.stop i).idx) (S.stop i).earliest_min)
      (S.stop i).idx (fun j hj => h j (by simp [hj]))
    have hcond : (max (t + S.time_m pos (S.stop i).idx) (S.stop i).earliest_min >
        (S.stop i).latest_min) ↔ t + S.time_m pos (S.stop i).idx > (S.stop i).latest_min := by
      rw [gt_iff_lt, lt_max_iff]
      constructor
      · rintro (h1 | h1)
        · exact h1
        · exact absurd h1 (not_lt.mpr hs)
      · exact Or.inl
    constructor
    · rw [feasWalk, List.map_cons, validWalk]
      by_cases hw : t + S.time_m pos (S.stop i).idx > (S.stop i).latest_min
      · rw [if_pos (hcond.mpr hw), if_pos hw]
        simp
      · rw [if_neg (fun hx => hw (hcond.mp hx)), if_neg hw]
        rw [hrest.1]
        simp
    · rw [feasTrace, List.map_cons, validTrace]
      rw [hrest.2]

/-- The reroute walk, started with `current_pos` equal to the running
index, keeps the stop order: the `i`-th emitted element carries the
`i`-th stop's identifier and `sequence = i`, and the emitted arrival
fields are built from the walked arrivals. -/
lemma rerouteGo_spec (tm : List (List ℚ)) :
    ∀ (stops : List RStop) (i : Nat) (t : ℚ),
      (rerouteGo tm i t i stops).map UpdatedStop.stop_id = stops.map RStop.id
      ∧ (rerouteGo tm i t i stops).map UpdatedStop.sequence = List.range' i stops.length
      ∧ (rerouteGo tm i t i stops).map UpdatedStop.planned_arrival_min =
          (etaArrivals tm i t stops).map (fun a => pyRound a 1)
      ∧ (rerouteGo tm i t i stops).map UpdatedStop.planned_arrival =
          (etaArrivals tm i t stops).map hhmmStr
  | [], i, t => by simp [rerouteGo, etaArrivals]
  | s :: rest, i, t => by
    have ih := rerouteGo_spec tm rest (i + 1)
      (max (t + (tm.getD i []).getD (i + 1) 0) (time_to_minutes s.earliest_time))
    rw [rerouteGo, etaArrivals]
    simp only [List.map_cons, List.length_cons, List.range'_succ]
    exact ⟨by rw [ih.1], by rw [ih.2.1], by rw [ih.2.2.1], by rw [ih.2.2.2]⟩

/-- C6: rerouting keeps the persisted stop order unchanged: the result
has `rerouted = true` and one output element per stop, in sequence
order `0, 1, …, m−1`, carrying the stop identifiers in their stored
order; `planned_arrival_min` is the walked arrival rounded to one
decimal and `planned_arrival` its integer-minute `HH:MM` truncation,
where the walk starts at the depot at minute 480 and advances the clock
to `max(arrival, earliest_min)`. -/
theorem reroute_preserves_order (route_id : Nat) (stops : List RStop)
    (tm : List (List ℚ)) :
    (reroute_active_result route_id stops tm).rerouted = true
    ∧ (reroute_active_result route_id stops tm).stops.length = stops.length
    ∧ (reroute_active_result route_id stops tm).stops.map UpdatedStop.stop_id =
        stops.map RStop.id
    ∧ (reroute_active_result route_id stops tm).stops.map UpdatedStop.sequence =
        List.range stops.length
    ∧ (reroute_active_result route_id stops tm).stops.map UpdatedStop.planned_arrival_min =
        (etaArrivals tm 0 480 stops).map (fun a => pyRound a 1)
    ∧ (reroute_active_result route_id stops tm).stops.map UpdatedStop.planned_arrival =
        (etaArrivals tm 0 480 stops).map hhmmStr := by
  have h := rerouteGo_spec tm stops 0 480
  refine ⟨rfl, ?_, h.1, ?_, h.2.2.1, h.2.2.2⟩
  · have := congrArg List.length h.1
    simpa using this
  · rw [List.range_eq_range']
    exact h.2.1

/-- Entry read of a nested-list matrix (out-of-range reads default to
zero, which the lemmas below never rely on for in-range indices). -/
def matEntry (m : List (List ℚ)) (p q : Nat) : ℚ := (m.getD p []).getD q 0

/-- Reading back the element just written by `List.set`. -/
lemma setGetD_self {α : Type} (l : List α) (i : Nat) (a d : α) (h : i < l.length) :
    (l.set i a).getD i d = a := by
  rw [List.getD_eq_getElem?_getD, List.getElem?_set_self h]
  rfl

/-- `List.set` leaves every other position unchanged. -/
lemma setGetD_ne {α : Type} (l : List α) (i j : Nat) (a d : α) (h : i ≠ j) :
    (l.set i a).getD j d = l.getD j d := by
  rw [List.getD_eq_getElem?_getD, List.getElem?_set_ne h, ← List.getD_eq_getElem?_getD]

/-- C7 counterexample: a negative `from_idx` is not "silently skipped".
With the 2×2 all-ones matrix, the event `from_idx = -1, to_idx = 0,
delay_factor = 2` passes the `fi < len(time_matrix)` check and Python's
signed indexing multiplies the entry in row 1 (the last row), so a
matrix entry does change; and the event `from_idx = -3` raises an
`IndexError` (modelled `none`) instead of being skipped. -/
theorem traffic_event_oob_counterexample :
    (applyEvents [[1, 1], [1, 1]]
        [{ from_idx := some (-1), to_idx := some 0, delay_factor := some 2 }]
      = some [[1, 1], [2, 1]])
    ∧ (applyEvents [[1, 1], [1, 1]]
        [{ from_idx := some (-3), to_idx := some 0, delay_factor := some 2 }]
      = none) := by
  constructor
  · norm_num [applyEvents, applyEvent, pyIndex, List.getD]
  · norm_num [applyEvents, applyEvent, pyIndex, List.getD]

/-- C7 amended: for events whose (defaulted) indices are nonnegative,
an index at or beyond the matrix bound is silently skipped with no
entry modified, and an in-bounds pair multiplies exactly the entry
`[from_idx][to_idx]` by the delay factor (`1.5` when absent), leaving
every other entry unchanged. -/
theorem traffic_event_bounds (tm : List (List ℚ)) (e : TrafficEvent)
    (hf : 0 ≤ e.from_idx.getD 0) (ht : 0 ≤ e.to_idx.getD 0) :
    ((tm.length : Int) ≤ e.from_idx.getD 0 → applyEvent tm e = some tm)
    ∧ (e.from_idx.getD 0 < (tm.length : Int) →
        ((tm.getD (e.from_idx.getD 0).toNat []).length : Int) ≤ e.to_idx.getD 0 →
        applyEvent tm e = some tm)
    ∧ (e.from_idx.getD 0 < (tm.length : Int) →
        e.to_idx.getD 0 < ((tm.getD (e.from_idx.getD 0).toNat []).length : Int) →
        ∃ tm', applyEvent tm e = some tm' ∧ ∀ p q : Nat,
          matEntry tm' p q =
            if p = (e.from_idx.getD 0).toNat ∧ q = (e.to_idx.getD 0).toNat
            then matEntry tm p q * e.delay_factor.getD (3 / 2)
            else matEntry tm p q) := by
  refine ⟨fun h => ?_, fun h1 h2 => ?_, fun h1 h2 => ?_⟩
  · rw [applyEvent, if_neg (not_lt.mpr h)]
  · rw [applyEvent, if_pos h1, pyIndex, if_pos ⟨hf, h1⟩]
    simp only
    rw [if_neg (not_lt.mpr h2)]
  · rw [applyEvent, if_pos h1, pyIndex, if_pos ⟨hf, h1⟩]
    simp only
    rw [if_pos h2, pyIndex, if_pos ⟨ht, h2⟩]
    refine ⟨_, rfl, fun p q => ?_⟩
    have hfl : (e.from_idx.getD 0).toNat < tm.length := by
      omega
    have htl : (e.to_idx.getD 0).toNat < (tm.getD (e.from_idx.getD 0).toNat []).length := by
      omega
    by_cases hp : p = (e.from_idx.getD 0).toNat
    · subst hp
      rw [matEntry, matEntry, setGetD_self _ _ _ _ hfl]
      by_cases hq : q = (e.to_idx.getD 0).toNat
      · subst hq
        rw [if_pos ⟨rfl, rfl⟩, setGetD_self _ _ _ _ htl]
      · rw [if_neg (fun hx => hq hx.2), setGetD_ne _ _ _ _ _ (fun hx => hq hx.symm)]
    · rw [if_neg (fun hx => hp hx.1)]
      rw [matEntry, matEntry, setGetD_ne _ _ _ _ _ (fun hx => hp hx.symm)]

/-- Entry of a map-built square matrix at in-range indices. -/
lemma mapMatrix_entry (f : ℝ × ℝ → ℝ × ℝ → ℝ) (coords : List (ℝ × ℝ))
    (i j : Fin coords.length) :
    (((coords.map fun ci => coords.map fun cj => f ci cj).getD i []).getD j 0)
      = f (coords.get i) (coords.get j) := by
  simp [List.getD_eq_getElem?_getD, List.getElem?_map,
    List.getElem?_eq_getElem, i.isLt, j.isLt, List.get_eq_getElem]

/-- The squared half-angle sine is symmetric in its endpoints. -/
lemma sin_half_sq_symm (x y : ℝ) :
    Real.sin ((x - y) / 2) ^ 2 = Real.sin ((y - x) / 2) ^ 2 := by
  rw [show (x - y) / 2 = -((y - x) / 2) by ring, Real.sin_neg, neg_sq]

/-- The haversine formula is symmetric in its two coordinates. -/
lemma haversineEntry_symm (R : ℝ) (a b : ℝ × ℝ) :
    haversineEntry R a b = haversineEntry R b a := by
  simp only [haversineEntry]
  rw [sin_half_sq_symm (b.1 * (Real.pi / 180)) (a.1 * (Real.pi / 180)),
    sin_half_sq_symm (b.2 * (Real.pi / 180)) (a.2 * (Real.pi / 180)),
    mul_comm (Real.cos (a.1 * (Real.pi / 180))) (Real.cos (b.1 * (Real.pi / 180)))]

/-- The haversine distance of a point to itself is exactly zero. -/
lemma haversineEntry_self (R : ℝ) (a : ℝ × ℝ) : haversineEntry R a a = 0 := by
  simp [haversineEntry]

/-- C8: the great-circle fallback returns square matrices of side
`len(coords)`; over exact real arithmetic the distance matrix is
symmetric, both diagonals are exactly zero, and every time entry is the
distance entry divided by the average speed times 60. -/
theorem haversine_matrix_properties (coords : List (ℝ × ℝ)) (v : ℝ) :
    (haversine_matrix coords v).1.length = coords.length
    ∧ (haversine_matrix coords v).2.length = coords.length
    ∧ (haversine_matrix coords v).1.map List.length =
        List.replicate coords.length coords.length
    ∧ (haversine_matrix coords v).2.map List.length =
        List.replicate coords.length coords.length
    ∧ ∀ i j : Fin coords.length,
        (((haversine_matrix coords v).1.getD i []).getD j 0 =
          ((haversine_matrix coords v).1.getD j []).getD i 0)
        ∧ ((haversine_matrix coords v).1.getD i []).getD i 0 = 0
        ∧ ((haversine_matrix coords v).2.getD i []).getD i 0 = 0
        ∧ ((haversine_matrix coords v).2.getD i []).getD j 0 =
            ((haversine_matrix coords v).1.getD i []).getD j 0 / v * 60 := by
  refine ⟨by simp [haversine_matrix], by simp [haversine_matrix], ?_, ?_, fun i j => ?_⟩
  · simp [haversine_matrix, List.map_map, Function.comp_def, List.map_const']
  · simp [haversine_matrix, List.map_map, Function.comp_def, List.map_const']
  · refine ⟨?_, ?_, ?_, ?_⟩
    · rw [show (haversine_matrix coords v).1 =
          coords.map fun ci => coords.map fun cj => haversineEntry 6371 ci cj from rfl]
      rw [mapMatrix_entry, mapMatrix_entry, haversineEntry_symm]
    · rw [show (haversine_matrix coords v).1 =
          coords.map fun ci => coords.map fun cj => haversineEntry 6371 ci cj from rfl]
      rw [mapMatrix_entry, haversineEntry_self]
    · rw [show (haversine_matrix coords v).2 =
          coords.map fun ci => coords.map fun cj => haversineEntry 6371 ci cj / v * 60 from rfl]
      rw [mapMatrix_entry (fun ci cj => haversineEntry 6371 ci cj / v * 60),
        haversineEntry_self]
      simp
    · rw [show (haversine_matrix coords v).2 =
          coords.map fun ci => coords.map fun cj => haversineEntry 6371 ci cj / v * 60 from rfl,
        show (haversine_matrix coords v).1 =
          coords.map fun ci => coords.map fun cj => haversineEntry 6371 ci cj from rfl]
      rw [mapMatrix_entry (fun ci cj => haversineEntry 6371 ci cj / v * 60),
        mapMatrix_entry]

/-! ### Greedy selection: characterization -/

/-- A stop is a feasible candidate for the scan: it fits the remaining
capacity and its window is still reachable. -/
def candOk (S : Solver) (v : VehicleRec) (load t : ℚ) (pos : Nat) (i : Nat) : Prop :=
  load + (S.stop i).weight ≤ v.capacity_kg ∧
    t + S.time_m pos (S.stop i).idx ≤ (S.stop i).latest_min

instance (S : Solver) (v : VehicleRec) (load t : ℚ) (pos i : Nat) :
    Decidable (candOk S v load t pos i) := by
  unfold candOk
  infer_instance

/-- An infeasible stop leaves the scan state unchanged. -/
lemma selectStep_of_not {S : Solver} {v : VehicleRec} {load t : ℚ} {pos i : Nat}
    (h : ¬ candOk S v load t pos i) (best : Option (Nat × ℚ)) :
    selectStep S v load t pos best i = best := by
  rw [selectStep]
  rcases not_and_or.mp h with h1 | h1
  · rw [if_pos (not_le.mp h1)]
  · by_cases h2 : load + (S.stop i).weight > v.capacity_kg
    · rw [if_pos h2]
    · rw [if_neg h2, if_pos (not_le.mp h1)]

/-- A feasible stop updates the scan state by the strict comparison. -/
lemma selectStep_of_ok {S : Solver} {v : VehicleRec} {load t : ℚ} {pos i : Nat}
    (h : candOk S v load t pos i) (best : Option (Nat × ℚ)) :
    selectStep S v load t pos best i =
      match best with
      | none => some (i, S.dist pos (S.stop i).idx)
      | some (bi, bd) =>
          if S.dist pos (S.stop i).idx < bd
          then some (i, S.dist pos (S.stop i).idx) else some (bi, bd) := by
  rw [selectStep, if_neg (not_lt.mpr h.1), if_neg (not_lt.mpr h.2)]
  rcases best with _ | ⟨bj, bd⟩ <;> rfl

/-- Full characterization of the greedy scan: a `none` result means no
candidate was feasible; a `some (bi, d)` result means `bi` is a
feasible candidate at distance `d`, every feasible candidate strictly
before it is strictly farther, and every feasible candidate after it is
no closer — so ties resolve in favour of the first-encountered
candidate. -/
lemma selectBest_spec (S : Solver) (v : VehicleRec) (load t : ℚ) (pos : Nat)
    (u : List Nat) :
    (selectBest S v u load t pos = none → ∀ j ∈ u, ¬ candOk S v load t pos j)
    ∧ ∀ bi d, selectBest S v u load t pos = some (bi, d) →
        d = S.dist pos (S.stop bi).idx ∧ candOk S v load t pos bi ∧
        ∃ u₁ u₂, u = u₁ ++ bi :: u₂
          ∧ (∀ j ∈ u₁, candOk S v load t pos j → d < S.dist pos (S.stop j).idx)
          ∧ (∀ j ∈ u₂, candOk S v load t pos j → d ≤ S.dist pos (S.stop j).idx) := by
  induction u using List.reverseRecOn with
  | nil =>
    refine ⟨fun _ j hj => absurd hj (List.not_mem_nil j), fun bi d hbi => ?_⟩
    rw [selectBest, List.foldl_nil] at hbi
    exact absurd hbi (by simp)
  | append_singleton u x ih =>
    have hstep : selectBest S v (u ++ [x]) load t pos =
        selectStep S v load t pos (selectBest S v u load t pos) x := by
      rw [selectBest, selectBest, List.foldl_append, List.foldl_cons, List.foldl_nil]
    by_cases hx : candOk S v load t pos x
    · rcases hacc : selectBest S v u load t pos with _ | ⟨bj, bd⟩
      · rw [hacc, selectStep_of_ok hx] at hstep
        simp only at hstep
        refine ⟨fun hnone => ?_, fun bi d hbi => ?_⟩
        · rw [hstep] at hnone
          exact absurd hnone (by simp)
        · rw [hstep] at hbi
          rw [Option.some_inj, Prod.mk.injEq] at hbi
          obtain ⟨hbix, hdx⟩ := hbi
          subst hbix
          subst hdx
          refine ⟨rfl, hx, u, [], rfl, fun j hj hjok => absurd hjok (ih.1 hacc j hj),
            fun j hj => absurd hj (List.not_mem_nil j)⟩
      · obtain ⟨hd, hokj, u₁, u₂, hu, h₁, h₂⟩ := ih.2 bj bd hacc
        rw [hacc, selectStep_of_ok hx] at hstep
        simp only at hstep
        by_cases hlt : S.dist pos (S.stop x).idx < bd
        · rw [if_pos hlt] at hstep
          refine ⟨fun hnone => ?_, fun bi d hbi => ?_⟩
          · rw [hstep] at hnone
            exact absurd hnone (by simp)
          · rw [hstep, Option.some_inj, Prod.mk.injEq] at hbi
            obtain ⟨hbix, hdx⟩ := hbi
            subst hbix
            subst hdx
            refine ⟨rfl, hx, u, [], rfl, fun j hj hjok => ?_,
              fun j hj => absurd hj (List.not_mem_nil j)⟩
            rw [hu] at hj
            rcases List.mem_append.mp hj with hj | hj
            · exact lt_trans hlt (h₁ j hj hjok)
            · rcases List.mem_cons.mp hj with hj | hj
              · rw [hj]
                rw [hj] at hjok
                exact hd ▸ hlt
              · exact lt_of_lt_of_le hlt (h₂ j hj hjok)
        · rw [if_neg hlt] at hstep
          refine ⟨fun hnone => ?_, fun bi d hbi => ?_⟩
          · rw [hstep] at hnone
            exact absurd hnone (by simp)
          · rw [hstep, Option.some_inj, Prod.mk.injEq] at hbi
            obtain ⟨hbix, hdx⟩ := hbi
            subst hbix
            subst hdx
            refine ⟨hd, hokj, u₁, u₂ ++ [x], by rw [hu]; simp, h₁, fun j hj hjok => ?_⟩
            rcases List.mem_append.mp hj with hj | hj
            · exact h₂ j hj hjok
            · rw [List.mem_singleton.mp hj]
              rw [List.mem_singleton.mp hj] at hjok
              exact not_lt.mp hlt
    · rw [selectStep_of_not hx] at hstep
      refine ⟨fun hnone => ?_, fun bi d hbi => ?_⟩
      · rw [hstep] at hnone
        intro j hj
        rcases List.mem_append.mp hj with hj | hj
        · exact (ih.1 hnone) j hj
        · rw [List.mem_singleton.mp hj]
          exact hx
      · rw [hstep] at hbi
        obtain ⟨hd, hok, u₁, u₂, hu, h₁, h₂⟩ := ih.2 bi d hbi
        refine ⟨hd, hok, u₁, u₂ ++ [x], by rw [hu]; simp, h₁, fun j hj hjok => ?_⟩
        rcases List.mem_append.mp hj with hj | hj
        · exact h₂ j hj hjok
        · rw [List.mem_singleton.mp hj] at hjok
          exact absurd hjok hx

/-! ### Greedy construction: invariants -/

/-- The per-vehicle greedy loop: the committed stops plus the remaining
unassigned list are a permutation of the incoming unassigned list; the
committed sequence passes the pre-wait time-window walk started at the
loop's clock and position; and the accumulated load stays within the
vehicle capacity. -/
lemma greedyVehicle_spec (S : Solver) (v : VehicleRec) :
    ∀ (fuel : Nat) (u : List Nat) (load t : ℚ) (pos : Nat),
      List.Perm ((greedyVehicle S v fuel u load t pos).1 ++
        (greedyVehicle S v fuel u load t pos).2) u
      ∧ preWaitOk S t pos (greedyVehicle S v fuel u load t pos).1 = true
      ∧ (load + (((greedyVehicle S v fuel u load t pos).1).map
            (fun i => (S.stop i).weight)).sum ≤ v.capacity_kg
          ∨ (greedyVehicle S v fuel u load t pos).1 = [])
  | 0, u, load, t, pos => by
    simp [greedyVehicle, preWaitOk]
  | fuel + 1, u, load, t, pos => by
    rcases hsel : selectBest S v u load t pos with _ | ⟨bi, d⟩
    · simp only [greedyVehicle, hsel]
      simp [preWaitOk]
    · obtain ⟨hd, hok, u₁, u₂, hu, -, -⟩ := (selectBest_spec S v load t pos u).2 bi d hsel
      have hmem : bi ∈ u := by
        rw [hu]
        exact List.mem_append_right u₁ (List.mem_cons_self bi u₂)
      have ih := greedyVehicle_spec S v fuel (u.erase bi) (load + (S.stop bi).weight)
        (max (t + S.time_m pos (S.stop bi).idx) (S.stop bi).earliest_min) (S.stop bi).idx
      simp only [greedyVehicle, hsel]
      refine ⟨?_, ?_, ?_⟩
      · exact (ih.1.cons bi).trans (List.perm_cons_erase hmem).symm
      · rw [preWaitOk]
        simp only [if_pos hok.2]
        exact ih.2.1
      · left
        rcases ih.2.2 with h | h
        · rw [List.map_cons, List.sum_cons, ← add_assoc]
          exact h
        · rw [h]
          simpa using hok.1

/-- The greedy vehicle loop: the concatenation of all emitted route
stop lists, together with some leftover list, is a permutation of the
incoming unassigned list; and every emitted route is nonempty, carries
`dist = _route_dist(stops)`, passes the pre-wait window walk from the
dispatch state, and fits its vehicle's capacity. -/
lemma greedyGo_spec (S : Solver) :
    ∀ (vs : List VehicleRec) (u : List Nat),
      (∃ rem, List.Perm (((greedyGo S vs u).map RouteRec.stops).flatten ++ rem) u)
      ∧ ∀ r ∈ greedyGo S vs u,
          r.stops ≠ []
          ∧ r.dist = route_dist S r.stops
          ∧ preWaitOk S S.start_min S.depot_idx r.stops = true
          ∧ (r.stops.map (fun i => (S.stop i).weight)).sum ≤ r.vehicle.capacity_kg
  | [], u => by
    refine ⟨⟨u, by simp [greedyGo]⟩, by simp [greedyGo]⟩
  | v :: vs, u => by
    by_cases hu : u = []
    · rw [greedyGo, if_pos hu]
      exact ⟨⟨u, by simp⟩, by simp⟩
    · have hgv := greedyVehicle_spec S v u.length u 0 S.start_min S.depot_idx
      have ih := greedyGo_spec S vs (greedyVehicle S v u.length u 0 S.start_min S.depot_idx).2
      obtain ⟨rem, hrem⟩ := ih.1
      rw [greedyGo, if_neg hu]
      by_cases hre : (greedyVehicle S v u.length u 0 S.start_min S.depot_idx).1 = []
      · rw [if_pos hre]
        refine ⟨⟨rem, ?_⟩, ih.2⟩
        refine hrem.trans ?_
        have := hgv.1
        rw [hre] at this
        simpa using this
      · rw [if_neg hre]
        constructor
        · refine ⟨rem, ?_⟩
          simp only [List.map_cons, List.flatten_cons]
          have h1 : List.Perm
              ((greedyVehicle S v u.length u 0 S.start_min S.depot_idx).1 ++
                (((greedyGo S vs
                  (greedyVehicle S v u.length u 0 S.start_min S.depot_idx).2).map
                    RouteRec.stops).flatten ++ rem))
              ((greedyVehicle S v u.length u 0 S.start_min S.depot_idx).1 ++
                (greedyVehicle S v u.length u 0 S.start_min S.depot_idx).2) :=
            hrem.append_left _
          rw [← List.append_assoc] at h1
          exact h1.trans hgv.1
        · intro r hr
          rcases List.mem_cons.mp hr with hr | hr
          · subst hr
            refine ⟨hre, rfl, hgv.2.1, ?_⟩
            rcases hgv.2.2 with h | h
            · simpa using h
            · exact absurd h hre
          · exact ih.2 r hr

/-! ### 2-opt: invariants -/

/-- Every scanned pair satisfies `i + 2 ≤ j`. -/
lemma twoOptPairs_le {len : Nat} {p : Nat × Nat} (h : p ∈ twoOptPairs len) :
    p.1 + 2 ≤ p.2 := by
  rw [twoOptPairs, List.mem_flatMap] at h
  obtain ⟨i, -, hp⟩ := h
  rw [List.mem_map] at hp
  obtain ⟨j, hj, hpe⟩ := hp
  have := (List.mem_range'_1.mp hj).1
  subst hpe
  exact this

/-- A 2-opt reversal candidate is a permutation of the route. -/
lemma twoOptCandidate_perm (l : List Nat) {i j : Nat} (hij : i ≤ j) :
    List.Perm (twoOptCandidate l i j) l := by
  have hsplit : l = l.take (i + 1) ++
      ((l.drop (i + 1)).take (j - i) ++ l.drop (j + 1)) := by
    have h1 : (l.drop (i + 1)).drop (j - i) = l.drop (j + 1) := by
      rw [List.drop_drop]
      congr 1
      omega
    rw [← h1, List.take_append_drop, List.take_append_drop]
  have h2 : List.Perm
      (l.take (i + 1) ++ ((l.drop (i + 1)).take (j - i)).reverse ++ l.drop (j + 1))
      (l.take (i + 1) ++ (l.drop (i + 1)).take (j - i) ++ l.drop (j + 1)) :=
    ((((l.drop (i + 1)).take (j - i)).reverse_perm).append_left _).append_right _
  rw [twoOptCandidate]
  refine h2.trans ?_
  rw [List.append_assoc, ← hsplit]

/-- Invariant propagation through one 2-opt scan: any property that
holds of the incoming route and is preserved by every accepted
(strictly improving, feasible) reversal holds of the scan's result. -/
lemma twoOptPass_inv (S : Solver) (v : VehicleRec) (P : List Nat → Prop)
    (hstep : ∀ l i j, P l → i + 2 ≤ j →
      route_dist S (twoOptCandidate l i j) < route_dist S l - epsilon →
      feasible S (twoOptCandidate l i j) v = true →
      P (twoOptCandidate l i j))
    (best : List Nat) (hb : P best) : P (twoOptPass S v best).1 := by
  have key : ∀ ps : List (Nat × Nat), (∀ p ∈ ps, p.1 + 2 ≤ p.2) →
      ∀ st : List Nat × Bool, P st.1 →
      P ((ps.foldl (fun st ij =>
        let cand := twoOptCandidate st.1 ij.1 ij.2
        if route_dist S cand < route_dist S st.1 - epsilon ∧ feasible S cand v = true
        then (cand, true) else st) st).1) := by
    intro ps
    induction ps with
    | nil =>
      intro _ st h
      simpa using h
    | cons p ps ih =>
      intro hps st hst
      rw [List.foldl_cons]
      refine ih (fun q hq => hps q (List.mem_cons_of_mem p hq)) _ ?_
      dsimp only
      by_cases hc : route_dist S (twoOptCandidate st.1 p.1 p.2) <
          route_dist S st.1 - epsilon
          ∧ feasible S (twoOptCandidate st.1 p.1 p.2) v = true
      · rw [if_pos hc]
        exact hstep st.1 p.1 p.2 hst (hps p (List.mem_cons_self p ps)) hc.1 hc.2
      · rw [if_neg hc]
        exact hst
  rw [twoOptPass]
  exact key _ (fun p hp => twoOptPairs_le hp) (best, false) hb

/-- Invariant propagation through the whole 2-opt improvement loop. -/
lemma twoOptLoop_inv (S : Solver) (v : VehicleRec) (P : List Nat → Prop)
    (hstep : ∀ l i j, P l → i + 2 ≤ j →
      route_dist S (twoOptCandidate l i j) < route_dist S l - epsilon →
      feasible S (twoOptCandidate l i j) v = true →
      P (twoOptCandidate l i j)) :
    ∀ (fuel : Nat) (best : List Nat), P best → P (twoOptLoop S v fuel best)
  | 0, best, hb => hb
  | fuel + 1, best, hb => by
    rw [twoOptLoop]
    cases h2 : (twoOptPass S v best).2 with
    | false => simpa [h2] using hb
    | true =>
      simp only [h2, if_true]
      exact twoOptLoop_inv S v P hstep fuel _ (twoOptPass_inv S v P hstep best hb)

/-- A route accepted by `_feasible` fits the vehicle capacity. -/
lemma feasible_capacity {S : Solver} {l : List Nat} {v : VehicleRec}
    (h : feasible S l v = true) :
    (l.map (fun i => (S.stop i).weight)).sum ≤ v.capacity_kg := by
  by_contra hc
  rw [feasible, if_pos (not_le.mp hc)] at h
  exact Bool.false_ne_true h

/-- A route accepted by `_feasible` passes its window walk. -/
lemma feasible_feasWalk {S : Solver} {l : List Nat} {v : VehicleRec}
    (h : feasible S l v = true) :
    feasWalk S S.start_min S.depot_idx l = true := by
  rw [feasible] at h
  by_cases hc : (l.map (fun i => (S.stop i).weight)).sum > v.capacity_kg
  · rw [if_pos hc] at h
    exact absurd h Bool.false_ne_true
  · rwa [if_neg hc] at h

/-- The post-wait walk of `_feasible` is stronger than the pre-wait
walk of the claims: waiting can only push the clock later, so if even
the post-wait clock meets every `latest_min`, the raw arrivals do. -/
lemma feasWalk_preWaitOk (S : Solver) :
    ∀ (l : List Nat) (t : ℚ) (pos : Nat),
      feasWalk S t pos l = true → preWaitOk S t pos l = true
  | [], t, pos, _ => rfl
  | i :: rest, t, pos, h => by
    rw [feasWalk] at h
    by_cases hc : max (t + S.time_m pos (S.stop i).idx) (S.stop i).earliest_min >
        (S.stop i).latest_min
    · rw [if_pos hc] at h
      exact absurd h Bool.false_ne_true
    · rw [if_neg hc] at h
      rw [preWaitOk, if_pos (le_trans (le_max_left _ _) (not_lt.mp hc))]
      exact feasWalk_preWaitOk S rest _ _ h

/-- `_two_opt` leaves the stop multiset of a route unchanged. -/
lemma two_opt_stops_perm (S : Solver) (r : RouteRec) :
    List.Perm (two_opt S r).stops r.stops := by
  rw [two_opt]
  exact twoOptLoop_inv S r.vehicle (fun l => List.Perm l r.stops)
    (fun l i j hP hij _ _ => (twoOptCandidate_perm l (by omega)).trans hP)
    _ r.stops (List.Perm.refl _)

/-- `_two_opt` never increases the route distance, and the `dist` field
it emits is the `_route_dist` of the stops it emits. -/
lemma two_opt_dist_le (S : Solver) (r : RouteRec) :
    (two_opt S r).dist = route_dist S (two_opt S r).stops
    ∧ (two_opt S r).dist ≤ route_dist S r.stops := by
  refine ⟨rfl, ?_⟩
  rw [two_opt]
  exact twoOptLoop_inv S r.vehicle (fun l => route_dist S l ≤ route_dist S r.stops)
    (fun l i j hP _ hlt _ => by
      have he : (0 : ℚ) < epsilon := by norm_num [epsilon]
      have : route_dist S (twoOptCandidate l i j) ≤ route_dist S l := by linarith
      exact le_trans this hP)
    _ r.stops le_rfl

/-- C1: 2-opt is monotone: the total distance of `solve()`'s routes is
at most the total distance of the greedy phase alone (hence within any
nonnegative tolerance), and each route's distance after `_two_opt` is
at most its distance before. -/
theorem two_opt_monotone (S : Solver) :
    ((solve S).map RouteRec.dist).sum ≤ ((greedy S).map RouteRec.dist).sum
    ∧ ∀ r ∈ greedy S, (two_opt S r).dist ≤ r.dist := by
  have hpt : ∀ r ∈ greedy S, (two_opt S r).dist ≤ r.dist := by
    intro r hr
    have hgg := (greedyGo_spec S S.vehicles (List.range S.n)).2 r hr
    rw [hgg.2.1]
    exact (two_opt_dist_le S r).2
  refine ⟨?_, hpt⟩
  rw [solve, List.map_map]
  exact List.sum_le_sum (fun r hr => hpt r hr)

/-- C2: every route of `solve()` respects the time windows: walking its
stop sequence from the depot at `start_min`, advancing the clock by the
travel entry and waiting to `earliest_min` when early, the pre-wait
arrival at each stop is at most its `latest_min` (the stated
window-sanity assumption `earliest_min ≤ latest_min` is not even
needed: the greedy check is on the pre-wait arrival and the 2-opt check
is stronger). -/
theorem solve_time_windows_respected (S : Solver)
    (hEL : ∀ s ∈ S.stops, s.earliest_min ≤ s.latest_min) :
    ∀ r ∈ solve S, preWaitOk S S.start_min S.depot_idx r.stops = true := by
  intro r hr
  rw [solve, List.mem_map] at hr
  obtain ⟨r₀, hr₀, rfl⟩ := hr
  have hg := (greedyGo_spec S S.vehicles (List.range S.n)).2 r₀ hr₀
  rw [two_opt]
  exact twoOptLoop_inv S r₀.vehicle
    (fun l => preWaitOk S S.start_min S.depot_idx l = true)
    (fun l i j hP hij hlt hf => feasWalk_preWaitOk S _ _ _ (feasible_feasWalk hf))
    _ r₀.stops hg.2.2.1

/-- C3: every route of `solve()` fits its vehicle: the sum of the
package weights of the stops assigned to the route is at most the
route's vehicle `capacity_kg`. -/
theorem solve_capacity_respected (S : Solver) :
    ∀ r ∈ solve S,
      (r.stops.map (fun i => (S.stop i).weight)).sum ≤ r.vehicle.capacity_kg := by
  intro r hr
  rw [solve, List.mem_map] at hr
  obtain ⟨r₀, hr₀, rfl⟩ := hr
  have hg := (greedyGo_spec S S.vehicles (List.range S.n)).2 r₀ hr₀
  have hveh : (two_opt S r₀).vehicle = r₀.vehicle := rfl
  rw [hveh, two_opt]
  exact twoOptLoop_inv S r₀.vehicle
    (fun l => (l.map (fun i => (S.stop i).weight)).sum ≤ r₀.vehicle.capacity_kg)
    (fun l i j hP hij hlt hf => feasible_capacity hf)
    _ r₀.stops hg.2.2.2

/-- C4: stop conservation: no stop position is assigned twice (so each
stop appears in at most one route, at most once), every assigned
position indexes a real stop, the assigned count plus the score's
`unassigned` equals `n` exactly, and `unassigned` is never negative —
unassignable stops are simply dropped (every function of the embedding
is total; nothing is raised). -/
theorem solve_stop_conservation (S : Solver) :
    (((solve S).map RouteRec.stops).flatten).Nodup
    ∧ (∀ i ∈ ((solve S).map RouteRec.stops).flatten, i < S.n)
    ∧ (((((solve S).map (fun r => r.stops.length)).sum : Nat) : Int) +
        (score S (solve S)).unassigned = (S.n : Int))
    ∧ 0 ≤ (score S (solve S)).unassigned := by
  have hjoin : List.Perm ((solve S).map RouteRec.stops).flatten
      ((greedy S).map RouteRec.stops).flatten := by
    rw [solve]
    have key : ∀ rs : List RouteRec,
        List.Perm (((rs.map (two_opt S)).map RouteRec.stops).flatten)
          ((rs.map RouteRec.stops).flatten) := by
      intro rs
      induction rs with
      | nil => simp
      | cons r rs ih =>
        simp only [List.map_cons, List.flatten_cons]
        exact (two_opt_stops_perm S r).append ih
    exact key (greedy S)
  obtain ⟨rem, hrem⟩ := (greedyGo_spec S S.vehicles (List.range S.n)).1
  have hndG : (((greedy S).map RouteRec.stops).flatten ++ rem).Nodup :=
    hrem.symm.nodup (List.nodup_range S.n)
  have hndS : (((solve S).map RouteRec.stops).flatten).Nodup :=
    (hjoin.symm.nodup) hndG.of_append_left
  have hmem : ∀ i ∈ ((solve S).map RouteRec.stops).flatten, i < S.n := by
    intro i hi
    have : i ∈ List.range S.n :=
      hrem.mem_iff.mp (List.mem_append_left rem (hjoin.mem_iff.mp hi))
    exact List.mem_range.mp this
  have hlenG : (((greedy S).map RouteRec.stops).flatten).length + rem.length = S.n := by
    have := hrem.length_eq
    simpa [List.length_append, List.length_range] using this
  have hsum : ((solve S).map (fun r => r.stops.length)).sum =
      (((solve S).map RouteRec.stops).flatten).length := by
    rw [List.length_flatten, List.map_map]
    rfl
  have hlenS : (((solve S).map RouteRec.stops).flatten).length =
      (((greedy S).map RouteRec.stops).flatten).length := hjoin.length_eq
  refine ⟨hndS, hmem, ?_, ?_⟩
  · simp only [score, Solver.n]
    omega
  · simp only [score]
    have : ((solve S).map (fun r => r.stops.length)).sum ≤ S.n := by
      rw [hsum, hlenS]
      omega
    simp only [Solver.n] at this ⊢
    omega

/-- C9: the solver is deterministic — equal inputs (stops, vehicles,
matrices, depot index, dispatch time) give equal outputs — and the
greedy scan resolves distance ties in favour of the first-encountered
candidate: whenever the scan selects `bi` at distance `d`, every
feasible candidate strictly before `bi` in input order is strictly
farther than `d`, and every feasible candidate after it is no closer. -/
theorem solve_deterministic_tiebreak :
    (∀ S₁ S₂ : Solver, S₁.stops = S₂.stops → S₁.vehicles = S₂.vehicles →
      (∀ p q, S₁.dist p q = S₂.dist p q) → (∀ p q, S₁.time_m p q = S₂.time_m p q) →
      S₁.depot_idx = S₂.depot_idx → S₁.start_min = S₂.start_min →
      solve S₁ = solve S₂)
    ∧ ∀ (S : Solver) (v : VehicleRec) (u : List Nat) (load t : ℚ) (pos bi : Nat) (d : ℚ),
        selectBest S v u load t pos = some (bi, d) →
        candOk S v load t pos bi ∧ d = S.dist pos (S.stop bi).idx ∧
        ∃ u₁ u₂, u = u₁ ++ bi :: u₂
          ∧ (∀ j ∈ u₁, candOk S v load t pos j → d < S.dist pos (S.stop j).idx)
          ∧ (∀ j ∈ u₂, candOk S v load t pos j → d ≤ S.dist pos (S.stop j).idx) := by
  constructor
  · intro S₁ S₂ h1 h2 h3 h4 h5 h6
    have heq : S₁ = S₂ := by
      cases S₁
      cases S₂
      simp only [Solver.mk.injEq]
      exact ⟨h1, h2, funext fun p => funext (h3 p), funext fun p => funext (h4 p), h5, h6⟩
    rw [heq]
  · intro S v u load t pos bi d h
    obtain ⟨hd, hok, dec⟩ := (selectBest_spec S v load t pos u).2 bi d h
    exact ⟨hok, hd, dec⟩

/-! ### Concrete fixtures for the witnesses -/

/-- `List.range 1`, evaluated. -/
lemma range_one : List.range 1 = [0] := rfl

/-- `List.range 2`, evaluated. -/
lemma range_two : List.range 2 = [0, 1] := rfl

/-- A 3×3 symmetric distance/time matrix: depot plus two stops, both at
distance 1 from the depot. -/
def DMAT : Nat → Nat → ℚ
  | 0, j => [0, 1, 1].getD j 0
  | 1, j => [1, 0, 1].getD j 0
  | 2, j => [1, 1, 0].getD j 0
  | _, _ => 0

/-- A one-stop, one-vehicle solver instance. -/
def SW : Solver :=
  { stops := [{ id := 1, idx := 1, weight := 10, earliest_min := 480, latest_min := 840 }]
    vehicles := [{ id := 1, capacity_kg := 100 }]
    dist := DMAT
    time_m := DMAT
    depot_idx := 0
    start_min := 480 }

/-- The route the greedy phase builds on `SW`. -/
def RW : RouteRec :=
  { vehicle := { id := 1, capacity_kg := 100 }, stops := [0], dist := 2 }

/-- A two-stop instance whose two candidates tie at distance 1 from the
depot. -/
def SW2 : Solver :=
  { stops := [{ id := 1, idx := 1, weight := 10, earliest_min := 480, latest_min := 840 },
              { id := 2, idx := 2, weight := 10, earliest_min := 480, latest_min := 840 }]
    vehicles := [{ id := 1, capacity_kg := 100 }]
    dist := DMAT
    time_m := DMAT
    depot_idx := 0
    start_min := 480 }

/-- The greedy phase on `SW`, evaluated. -/
lemma greedy_SW : greedy SW = [RW] := by
  rw [greedy, show SW.n = 1 from rfl, range_one]
  norm_num [greedyGo, greedyVehicle, selectBest, selectStep, SW, RW, Solver.stop, DMAT,
    route_dist, routeDistFrom, List.getD, List.erase]

/-- One 2-opt scan on `SW`'s single-stop route accepts nothing (the
pair list of a length-1 route is empty). -/
lemma pass_SW : twoOptPass SW { id := 1, capacity_kg := 100 } [0] = ([0], false) := rfl

/-- The full solve on `SW`, evaluated. -/
lemma solve_SW : solve SW = [RW] := by
  rw [solve, greedy_SW, List.map_cons, List.map_nil]
  have h : two_opt SW RW = RW := by
    rw [two_opt]
    rw [show RW.vehicle = { id := 1, capacity_kg := 100 } from rfl,
      show RW.stops = [0] from rfl]
    rw [twoOptLoop_fix (by rw [pass_SW])]
    norm_num [RW, route_dist, routeDistFrom, SW, Solver.stop, DMAT, List.getD]
  rw [h]

/-- Witness for C1 at the concrete instance `SW`: the route `RW` is in
the greedy output and 2-opt does not increase its distance. -/
theorem two_opt_monotone_witness : (two_opt SW RW).dist ≤ RW.dist :=
  (two_opt_monotone SW).2 RW (by rw [greedy_SW]; exact List.mem_singleton_self RW)

/-- Witness for C2 at `SW`: the window-sanity hypothesis holds and the
solved route passes the pre-wait walk. -/
theorem solve_time_windows_respected_witness :
    preWaitOk SW SW.start_min SW.depot_idx RW.stops = true :=
  solve_time_windows_respected SW
    (by norm_num [SW])
    RW (by rw [solve_SW]; exact List.mem_singleton_self RW)

/-- Witness for C3 at `SW`: the solved route's load fits its vehicle. -/
theorem solve_capacity_respected_witness :
    (RW.stops.map (fun i => (SW.stop i).weight)).sum ≤ RW.vehicle.capacity_kg :=
  solve_capacity_respected SW RW (by rw [solve_SW]; exact List.mem_singleton_self RW)

/-- Witness for C4 at `SW`: stop position 0 is assigned, is a real stop
index, and the conservation equation holds. -/
theorem solve_stop_conservation_witness :
    (((solve SW).map RouteRec.stops).flatten).Nodup
    ∧ 0 < SW.n
    ∧ (((((solve SW).map (fun r => r.stops.length)).sum : Nat) : Int) +
        (score SW (solve SW)).unassigned = (SW.n : Int))
    ∧ 0 ≤ (score SW (solve SW)).unassigned := by
  have h := solve_stop_conservation SW
  refine ⟨h.1, h.2.1 0 ?_, h.2.2.1, h.2.2.2⟩
  rw [solve_SW]
  simp [RW]

/-- Witness for C7 at a concrete in-bounds event: `from_idx = 1`,
`to_idx = 0`, factor 2 multiplies exactly the `[1][0]` entry. -/
theorem traffic_event_bounds_witness :
    ∃ tm', applyEvent [[(1 : ℚ), 2], [3, 4]]
        { from_idx := some 1, to_idx := some 0, delay_factor := some 2 } = some tm'
      ∧ ∀ p q : Nat,
          matEntry tm' p q =
            if p = ((some (1 : Int)).getD 0).toNat ∧ q = ((some (0 : Int)).getD 0).toNat
            then matEntry [[(1 : ℚ), 2], [3, 4]] p q *
              ((some (2 : ℚ)).getD (3 / 2))
            else matEntry [[(1 : ℚ), 2], [3, 4]] p q :=
  (traffic_event_bounds [[(1 : ℚ), 2], [3, 4]]
      { from_idx := some 1, to_idx := some 0, delay_factor := some 2 }
      (by decide) (by decide)).2.2 (by decide) (by decide)

/-- Witness for C9: `solve` applied to syntactically equal copies of
`SW2` agrees, and the greedy scan on `SW2`'s tie (both stops at
distance 1) selects the first candidate, position 0. -/
theorem solve_deterministic_tiebreak_witness :
    (solve SW2 = solve SW2)
    ∧ (candOk SW2 { id := 1, capacity_kg := 100 } 0 480 0 0
        ∧ (1 : ℚ) = SW2.dist 0 (SW2.stop 0).idx
        ∧ ∃ u₁ u₂, ([0, 1] : List Nat) = u₁ ++ 0 :: u₂
          ∧ (∀ j ∈ u₁, candOk SW2 { id := 1, capacity_kg := 100 } 0 480 0 j →
              (1 : ℚ) < SW2.dist 0 (SW2.stop j).idx)
          ∧ (∀ j ∈ u₂, candOk SW2 { id := 1, capacity_kg := 100 } 0 480 0 j →
              (1 : ℚ) ≤ SW2.dist 0 (SW2.stop j).idx)) := by
  constructor
  · exact solve_deterministic_tiebreak.1 SW2 SW2 rfl rfl (fun _ _ => rfl) (fun _ _ => rfl)
      rfl rfl
  · refine solve_deterministic_tiebreak.2 SW2 { id := 1, capacity_kg := 100 } [0, 1]
      0 480 0 0 1 ?_
    norm_num [selectBest, selectStep, SW2, Solver.stop, DMAT, List.getD]

/-- Witness for C10 at `SW`: the window-sanity hypothesis holds and the
two walks agree on the ordering `[0]`. -/
theorem feasible_matches_validate_witness :
    (feasWalk SW 480 0 [0] = true ↔
      (validWalk SW.time_m 480 0 ([0].map SW.stop)).isSome = true)
    ∧ feasTrace SW 480 0 [0] = validTrace SW.time_m 480 0 ([0].map SW.stop) :=
  feasible_matches_validate SW [0] 480 0 (by norm_num [SW, Solver.stop, List.getD])
